import Mathlib

set_option maxHeartbeats 1000000

namespace FinovateX

/-!
Verification development for the FinovateX pub/sub verification harness.

The Python data model is embedded shallowly: JSON/Python values become the
inductive PyValue, datetime objects become the Datetime structure together
with an executable isoformat printer and fromisoformat parser, and the
TestMessage envelope follows src/tests/test_app_integration.py.  The NATS
JetStream broker is external to the repository, so its durable-consumer
semantics are modelled from the specification (sections 3, 4.5 and 5 of
spec.md); every such definition carries a doc comment beginning
Modelled from the spec.
-/

/-- Embedding of Python/JSON values as exchanged by json.loads and json.dumps.
Only the constructors that can occur in this codebase are included. -/
inductive PyValue where
  | str (s : String)
  | int (n : Int)
  | bool (b : Bool)
  | list (xs : List PyValue)
  | dict (fields : List (String × PyValue))
  | none

/-- Python truthiness: empty string, zero, False, empty list, empty dict and
None are falsy, everything else is truthy. -/
def pyTruthy : PyValue → Bool
  | .str s => s != ""
  | .int n => n != 0
  | .bool b => b
  | .list xs => !xs.isEmpty
  | .dict fs => !fs.isEmpty
  | .none => false

/-- Python dict lookup on an association list; a later binding for the same
key shadows an earlier one, matching dict construction and json.loads. -/
def dictLookup : List (String × PyValue) → String → Option PyValue
  | [], _ => Option.none
  | (k, v) :: rest, key =>
    match dictLookup rest key with
    | some w => some w
    | Option.none => if k == key then some v else Option.none

/-- Embedding of a (naive) Python datetime at the resolution it actually
carries: whole fields down to microseconds. -/
structure Datetime where
  year : Nat
  month : Nat
  day : Nat
  hour : Nat
  minute : Nat
  second : Nat
  microsecond : Nat
deriving DecidableEq

/-- Gregorian leap-year rule, as used by the Python datetime module. -/
def isLeapYear (y : Nat) : Bool :=
  (y % 4 == 0 && y % 100 != 0) || y % 400 == 0

/-- Number of days in a month of a given year, as validated by datetime. -/
def daysInMonth (y m : Nat) : Nat :=
  if m == 2 then (if isLeapYear y then 29 else 28)
  else if m == 4 || m == 6 || m == 9 || m == 11 then 30
  else 31

/-- The field ranges a Python datetime object can hold. -/
def Datetime.valid (d : Datetime) : Bool :=
  1 ≤ d.year && d.year ≤ 9999 && 1 ≤ d.month && d.month ≤ 12 &&
  1 ≤ d.day && d.day ≤ daysInMonth d.year d.month &&
  d.hour ≤ 23 && d.minute ≤ 59 && d.second ≤ 59 && d.microsecond ≤ 999999

/-- The ASCII digit character for n mod 10. -/
def digitChar (n : Nat) : Char := Char.ofNat (48 + n % 10)

/-- Two-digit zero-padded decimal rendering of n mod 100. -/
def pad2 (n : Nat) : List Char := [digitChar (n / 10), digitChar n]

/-- Three-digit zero-padded decimal rendering, used for order-NNN ids. -/
def pad3 (n : Nat) : List Char := [digitChar (n / 100), digitChar (n / 10), digitChar n]

/-- Four-digit zero-padded decimal rendering of n mod 10000. -/
def pad4 (n : Nat) : List Char := pad2 (n / 100) ++ pad2 n

/-- Six-digit zero-padded decimal rendering of n mod 1000000. -/
def pad6 (n : Nat) : List Char := pad2 (n / 10000) ++ pad2 (n / 100) ++ pad2 n

/-- datetime.isoformat as a character list: YYYY-MM-DDTHH:MM:SS, with a
.ffffff microsecond suffix exactly when the microsecond field is nonzero. -/
def Datetime.isoformatChars (d : Datetime) : List Char :=
  pad4 d.year ++ ('-' :: (pad2 d.month ++ ('-' :: (pad2 d.day ++
  ('T' :: (pad2 d.hour ++ (':' :: (pad2 d.minute ++ (':' :: (pad2 d.second ++
  (if d.microsecond == 0 then [] else '.' :: pad6 d.microsecond)))))))))))

/-- datetime.isoformat as a String. -/
def Datetime.isoformat (d : Datetime) : String := String.mk d.isoformatChars

/-- Parse one ASCII digit. -/
def parseDigit (c : Char) : Option Nat :=
  if 48 ≤ c.toNat && c.toNat ≤ 57 then some (c.toNat - 48) else Option.none

/-- Parse exactly two decimal digits. -/
def parse2 : List Char → Option (Nat × List Char)
  | c1 :: c2 :: rest => do
    let d1 ← parseDigit c1
    let d2 ← parseDigit c2
    pure (d1 * 10 + d2, rest)
  | _ => Option.none

/-- Parse exactly four decimal digits. -/
def parse4 (cs : List Char) : Option (Nat × List Char) := do
  let (h, r1) ← parse2 cs
  let (l, r2) ← parse2 r1
  pure (h * 100 + l, r2)

/-- Parse exactly six decimal digits. -/
def parse6 (cs : List Char) : Option (Nat × List Char) := do
  let (a, r1) ← parse2 cs
  let (b, r2) ← parse2 r1
  let (c, r3) ← parse2 r2
  pure (a * 10000 + b * 100 + c, r3)

/-- Consume one expected character. -/
def expectChar (c : Char) : List Char → Option (List Char)
  | c2 :: rest => if c2 == c then some rest else Option.none
  | [] => Option.none

/-- datetime.fromisoformat restricted to the image of isoformat on naive
datetimes: full date, the separator T, full time, optional six-digit
fraction; field ranges are validated and trailing input is rejected.
CPython accepts further, version-dependent forms (date-only strings, other
single-character separators, shorter fractions, offset suffixes), so this
parser is exact only on the isoformat image; no theorem below relies on it
rejecting a string, only on its exactness on that image. -/
def fromisoformatChars (cs : List Char) : Option Datetime := do
  let (y, r1) ← parse4 cs
  let r2 ← expectChar '-' r1
  let (mo, r3) ← parse2 r2
  let r4 ← expectChar '-' r3
  let (dy, r5) ← parse2 r4
  let r6 ← expectChar 'T' r5
  let (h, r7) ← parse2 r6
  let r8 ← expectChar ':' r7
  let (mi, r9) ← parse2 r8
  let r10 ← expectChar ':' r9
  let (s, r11) ← parse2 r10
  let (us, r12) ←
    (match r11 with
     | [] => some ((0 : Nat), ([] : List Char))
     | c :: rest => if c == '.' then parse6 rest else Option.none)
  let dt : Datetime := ⟨y, mo, dy, h, mi, s, us⟩
  if r12.isEmpty && dt.valid then some dt else Option.none

/-- datetime.fromisoformat on a String. -/
def Datetime.fromisoformat (s : String) : Option Datetime :=
  fromisoformatChars s.data

theorem parseDigit_ofNat : ∀ k < 10, parseDigit (Char.ofNat (48 + k)) = some k := by
  decide

theorem parseDigit_digitChar (n : Nat) : parseDigit (digitChar n) = some (n % 10) := by
  have h : n % 10 < 10 := Nat.mod_lt _ (by norm_num)
  simpa [digitChar] using parseDigit_ofNat (n % 10) h

theorem parse2_pad2 (n : Nat) (rest : List Char) :
    parse2 (pad2 n ++ rest) = some (n % 100, rest) := by
  simp [pad2, parse2, parseDigit_digitChar, Option.bind]
  omega

theorem parse4_pad4 (n : Nat) (rest : List Char) :
    parse4 (pad4 n ++ rest) = some (n % 10000, rest) := by
  simp [pad4, parse4, List.append_assoc, parse2_pad2, Option.bind]
  omega

theorem parse6_pad6 (n : Nat) (rest : List Char) :
    parse6 (pad6 n ++ rest) = some (n % 1000000, rest) := by
  simp [pad6, parse6, List.append_assoc, parse2_pad2, Option.bind]
  omega

theorem expectChar_cons (c : Char) (rest : List Char) :
    expectChar c (c :: rest) = some rest := by
  simp [expectChar]

theorem parse2_pad2_nil (n : Nat) : parse2 (pad2 n) = some (n % 100, []) := by
  simpa using parse2_pad2 n []

theorem parse6_pad6_nil (n : Nat) : parse6 (pad6 n) = some (n % 1000000, []) := by
  simpa using parse6_pad6 n []

theorem daysInMonth_le (y m : Nat) : daysInMonth y m ≤ 31 := by
  unfold daysInMonth
  split
  · split <;> omega
  · split <;> omega

/-- The parser inverts the printer on every datetime whose fields are in
range: the ISO-8601 round trip is lossless at sub-second resolution. -/
theorem fromisoformat_isoformat (d : Datetime) (h : d.valid = true) :
    fromisoformatChars d.isoformatChars = some d := by
  obtain ⟨y, mo, dy, hh, mi, s, us⟩ := d
  have hvalid := h
  simp only [Datetime.valid, Bool.and_eq_true, decide_eq_true_eq] at h
  have h31 := daysInMonth_le y mo
  have hym : y % 10000 = y := Nat.mod_eq_of_lt (by omega)
  have hmom : mo % 100 = mo := Nat.mod_eq_of_lt (by omega)
  have hdym : dy % 100 = dy := Nat.mod_eq_of_lt (by omega)
  have hhm : hh % 100 = hh := Nat.mod_eq_of_lt (by omega)
  have hmim : mi % 100 = mi := Nat.mod_eq_of_lt (by omega)
  have hsm : s % 100 = s := Nat.mod_eq_of_lt (by omega)
  have husm : us % 1000000 = us := Nat.mod_eq_of_lt (by omega)
  by_cases hzero : us = 0
  · subst hzero
    simp only [Datetime.isoformatChars, beq_self_eq_true, if_pos]
    simp only [fromisoformatChars, List.append_nil, parse4_pad4, parse2_pad2,
      parse2_pad2_nil, expectChar_cons, Option.bind_eq_bind, Option.some_bind,
      hym, hmom, hdym, hhm, hmim, hsm]
    simp [hvalid]
  · have hne : (us == 0) = false := by simp [hzero]
    simp only [Datetime.isoformatChars, hne, Bool.false_eq_true, if_false]
    simp only [fromisoformatChars, parse4_pad4, parse2_pad2, expectChar_cons,
      Option.bind_eq_bind, Option.some_bind, hym, hmom, hdym, hhm, hmim, hsm]
    simp only [beq_self_eq_true, if_pos, parse6_pad6_nil, Option.some_bind, husm]
    simp [hvalid]

/-!
The TestMessage envelope, from src/tests/test_app_integration.py.
Python is untyped, so the id, type and payload fields hold arbitrary
PyValues; the timestamp field is always a datetime at every reachable
point of the code, so it is typed as Datetime.
-/

/-- The envelope class TestMessage with fields id, type, payload,
timestamp. -/
structure TestMessage where
  id : PyValue
  type : PyValue
  payload : PyValue
  timestamp : Datetime

/-- Python value-or coalescing as in the expression msg_id or fallback:
a falsy left operand (None or an empty or zero value) yields the
fallback. -/
def pyOrElse (v : Option PyValue) (fallback : PyValue) : PyValue :=
  match v with
  | some w => if pyTruthy w then w else fallback
  | Option.none => fallback

/-- The TestMessage constructor: a falsy msg_id is replaced by a freshly
generated uuid4 string and an absent timestamp by datetime.now, both
supplied here as explicit parameters freshId and freshTs. -/
def TestMessage.create (freshId : String) (freshTs : Datetime)
    (msg_id : Option PyValue) (msg_type : PyValue) (payload : PyValue)
    (timestamp : Option Datetime) : TestMessage :=
  { id := pyOrElse msg_id (.str freshId)
    type := msg_type
    payload := payload
    timestamp := timestamp.getD freshTs }

/-- TestMessage.to_dict: the flat four-field representation handed to
json.dumps, with the timestamp rendered by isoformat. -/
def TestMessage.to_dict (m : TestMessage) : PyValue :=
  .dict [("id", m.id), ("type", m.type), ("payload", m.payload),
         ("timestamp", .str m.timestamp.isoformat)]

/-- The spec error taxonomy name for a deserialization failure; the
constructors record the underlying Python exception family (KeyError on a
missing dict key, TypeError on subscripting a non-dict or passing a
non-string to fromisoformat, ValueError on an unparseable string). -/
inductive MalformedEnvelope where
  | keyError (k : String)
  | typeError
  | valueError
deriving DecidableEq

/-- Python subscript value with a string key: a dict either yields the
entry or raises KeyError; every other value raises TypeError. -/
def getItem (v : PyValue) (k : String) : Except MalformedEnvelope PyValue :=
  match v with
  | .dict fields =>
    match dictLookup fields k with
    | some w => .ok w
    | Option.none => .error (.keyError k)
  | _ => .error .typeError

/-- TestMessage.from_json on an already json-decoded value: reads the four
required fields in source order, parses the timestamp with fromisoformat,
and hands everything to the constructor.  The json.loads text layer is
lossless on these flat objects and is modelled as already applied. -/
def TestMessage.from_json (freshId : String) (freshTs : Datetime)
    (data : PyValue) : Except MalformedEnvelope TestMessage := do
  let i ← getItem data "id"
  let t ← getItem data "type"
  let p ← getItem data "payload"
  let tsRaw ← getItem data "timestamp"
  let ts ←
    (match tsRaw with
     | .str s =>
       match Datetime.fromisoformat s with
       | some dt => Except.ok dt
       | Option.none => Except.error MalformedEnvelope.valueError
     | _ => Except.error MalformedEnvelope.typeError)
  pure (TestMessage.create freshId freshTs (some i) t p (some ts))

/-- C1: serializing a valid envelope (string id, type and payload, id
nonempty as a textually encoded uuid always is, timestamp fields in range)
and deserializing the result reproduces id, type, payload and timestamp
field-for-field, the timestamp at the sub-second resolution at which it was
encoded. -/
theorem envelope_roundtrip (freshId : String) (freshTs : Datetime)
    (m : TestMessage)
    (hid : ∃ s, m.id = .str s ∧ s ≠ "")
    (hty : ∃ s, m.type = .str s)
    (hpl : ∃ s, m.payload = .str s)
    (hts : m.timestamp.valid = true) :
    TestMessage.from_json freshId freshTs m.to_dict = .ok m := by
  obtain ⟨i, hi, hine⟩ := hid
  obtain ⟨t, ht⟩ := hty
  obtain ⟨p, hp⟩ := hpl
  obtain ⟨mid, mty, mpl, mts⟩ := m
  simp only at hi ht hp hts
  subst hi ht hp
  have hiso : Datetime.fromisoformat mts.isoformat = some mts := by
    simpa [Datetime.fromisoformat, Datetime.isoformat] using
      fromisoformat_isoformat mts hts
  simp [TestMessage.from_json, TestMessage.to_dict, getItem, dictLookup,
    hiso, TestMessage.create, pyOrElse, pyTruthy, hine, bind, Except.bind,
    Functor.map, Except.map, pure, Except.pure, bne_iff_ne]

/-- Witness for C1 at a concrete envelope with nonzero microseconds. -/
theorem envelope_roundtrip_witness :
    TestMessage.from_json "w" ⟨2020, 1, 1, 0, 0, 0, 0⟩
      (TestMessage.to_dict ⟨.str "abc123", .str "test", .str "hello",
        ⟨2024, 5, 6, 7, 8, 9, 123456⟩⟩) =
    .ok ⟨.str "abc123", .str "test", .str "hello",
        ⟨2024, 5, 6, 7, 8, 9, 123456⟩⟩ :=
  envelope_roundtrip "w" ⟨2020, 1, 1, 0, 0, 0, 0⟩ _
    ⟨"abc123", rfl, by decide⟩ ⟨"test", rfl⟩ ⟨"hello", rfl⟩ (by decide)

/-- C7 counterexample input: the id field has the wrong shape (a JSON
number, not a string) while all other fields are well-formed. -/
def wrongShapeEnvelope : PyValue :=
  .dict [("id", .int 1), ("type", .str "t"), ("payload", .str "p"),
         ("timestamp", .str "2024-01-02T03:04:05")]

/-- C7 counterexample: deserializing an object whose id field has the wrong
shape does not fail; from_json returns an envelope carrying the non-string
id unchanged, so the claim that every wrong-shaped required field is
rejected with MalformedEnvelope is false on this input. -/
theorem from_json_accepts_wrong_shape_id :
    TestMessage.from_json "fresh" ⟨2020, 1, 1, 0, 0, 0, 0⟩ wrongShapeEnvelope =
      .ok ⟨.int 1, .str "t", .str "p", ⟨2024, 1, 2, 3, 4, 5, 0⟩⟩ := rfl

/-- C7 amended: deserialization fails with a MalformedEnvelope error when
the decoded value is not an object, when one of the four required fields is
absent, or when the timestamp field is not a string at all; wrong shapes of
the id, type and payload fields are accepted unchecked.  An unparseable
timestamp string also raises ValueError in the code, but the acceptance set
of datetime.fromisoformat beyond the isoformat image is CPython-version
dependent, so no failure on a timestamp string is asserted here. -/
theorem from_json_malformed (freshId : String) (freshTs : Datetime)
    (v : PyValue)
    (h : (∀ fields, v ≠ .dict fields) ∨
         (∃ fields, v = .dict fields ∧
           (dictLookup fields "id" = Option.none ∨
            dictLookup fields "type" = Option.none ∨
            dictLookup fields "payload" = Option.none ∨
            dictLookup fields "timestamp" = Option.none ∨
            (∃ w, dictLookup fields "timestamp" = some w ∧ ∀ s, w ≠ .str s)))) :
    ∃ e, TestMessage.from_json freshId freshTs v = .error e := by
  rcases h with hnd | ⟨fields, rfl, hbad⟩
  · cases v with
    | dict fields => exact absurd rfl (hnd fields)
    | str s => exact ⟨.typeError, rfl⟩
    | int n => exact ⟨.typeError, rfl⟩
    | bool b => exact ⟨.typeError, rfl⟩
    | list xs => exact ⟨.typeError, rfl⟩
    | none => exact ⟨.typeError, rfl⟩
  · cases hid : dictLookup fields "id" with
    | none =>
      exact ⟨.keyError "id",
        by simp [TestMessage.from_json, getItem, hid, bind, Except.bind]⟩
    | some iv =>
    cases hty : dictLookup fields "type" with
    | none =>
      exact ⟨.keyError "type",
        by simp [TestMessage.from_json, getItem, hid, hty, bind, Except.bind]⟩
    | some tv =>
    cases hpl : dictLookup fields "payload" with
    | none =>
      exact ⟨.keyError "payload",
        by simp [TestMessage.from_json, getItem, hid, hty, hpl, bind, Except.bind]⟩
    | some pv =>
    cases hts : dictLookup fields "timestamp" with
    | none =>
      exact ⟨.keyError "timestamp",
        by simp [TestMessage.from_json, getItem, hid, hty, hpl, hts, bind, Except.bind]⟩
    | some w =>
      rcases hbad with h1 | h2 | h3 | h4 | ⟨w', hw', hns⟩
      · rw [hid] at h1; cases h1
      · rw [hty] at h2; cases h2
      · rw [hpl] at h3; cases h3
      · rw [hts] at h4; cases h4
      · have hww : w' = w := by rw [hw'] at hts; exact Option.some.inj hts
        subst hww
        cases w' with
        | str s => exact absurd rfl (hns s)
        | int n =>
          exact ⟨.typeError,
            by simp [TestMessage.from_json, getItem, hid, hty, hpl, hts,
              bind, Except.bind]⟩
        | bool b =>
          exact ⟨.typeError,
            by simp [TestMessage.from_json, getItem, hid, hty, hpl, hts,
              bind, Except.bind]⟩
        | list xs =>
          exact ⟨.typeError,
            by simp [TestMessage.from_json, getItem, hid, hty, hpl, hts,
              bind, Except.bind]⟩
        | dict fs =>
          exact ⟨.typeError,
            by simp [TestMessage.from_json, getItem, hid, hty, hpl, hts,
              bind, Except.bind]⟩
        | none =>
          exact ⟨.typeError,
            by simp [TestMessage.from_json, getItem, hid, hty, hpl, hts,
              bind, Except.bind]⟩

/-- Witness for C7 amended at an input missing the id field. -/
theorem from_json_malformed_witness :
    ∃ e, TestMessage.from_json "f" ⟨2020, 1, 1, 0, 0, 0, 0⟩
      (.dict [("type", .str "t")]) = .error e :=
  from_json_malformed "f" ⟨2020, 1, 1, 0, 0, 0, 0⟩ _
    (Or.inr ⟨[("type", .str "t")], rfl, Or.inl rfl⟩)

/-!
The broker.  The NATS JetStream server is an external collaborator of this
repository (spec section 1), so its durable-pull-consumer semantics are
modelled from the spec: streams retain messages in publish order; a durable
consumer is broker-owned state created on first use, holding a cursor, the
set of in-flight unacknowledged deliveries, and the acknowledged set; an
unacknowledged delivery becomes eligible for redelivery once the ack-wait
interval has elapsed; distinct durable names are fully independent.
Time is an explicit discrete parameter.
-/

/-- Modelled from the spec: a message retained by the broker stream, the
wire bytes kept at the json-decoded level. -/
structure StoredMsg where
  subject : String
  data : PyValue

/-- Modelled from the spec: broker-owned durable-consumer state.  nextIdx
is the cursor (next never-delivered stream index), pending lists in-flight
unacknowledged deliveries as (stream index, delivery time), acked lists
acknowledged stream indices. -/
structure ConsumerState where
  nextIdx : Nat
  pending : List (Nat × Nat)
  acked : List Nat

/-- Modelled from the spec: a durable consumer starts with deliver-all
policy: cursor at the head of the stream, nothing in flight, nothing
acknowledged. -/
def ConsumerState.fresh : ConsumerState := ⟨0, [], []⟩

/-- Modelled from the spec: the broker is the single source of truth for
retention, cursor position and redelivery timers.  One stream is modelled;
ackWait is the broker-configured redelivery interval. -/
structure BrokerState where
  stream : List StoredMsg
  consumers : List (String × ConsumerState)
  ackWait : Nat

/-- First binding for a durable name in the consumer table. -/
def lookupConsumer (b : BrokerState) (d : String) : Option ConsumerState :=
  (b.consumers.find? (fun p => p.1 == d)).map (fun p => p.2)

/-- Replace or append the binding of a durable name. -/
def updateAssoc : List (String × ConsumerState) → String → ConsumerState →
    List (String × ConsumerState)
  | [], d, c => [(d, c)]
  | (k, v) :: rest, d, c =>
    if k == d then (d, c) :: rest else (k, v) :: updateAssoc rest d c

/-- Store a consumer state under a durable name. -/
def setConsumer (b : BrokerState) (d : String) (c : ConsumerState) : BrokerState :=
  { b with consumers := updateAssoc b.consumers d c }

/-- Modelled from the spec: a durable consumer is created on first use of a
new durable name, so an absent binding reads as the fresh state. -/
def getConsumer (b : BrokerState) (d : String) : ConsumerState :=
  (lookupConsumer b d).getD ConsumerState.fresh

/-- Modelled from the spec: pull_subscribe binds a durable name, creating
the broker-side consumer when the name is new and resuming it otherwise. -/
def pullSubscribe (b : BrokerState) (d : String) : BrokerState :=
  match lookupConsumer b d with
  | some _ => b
  | Option.none => setConsumer b d ConsumerState.fresh

/-- First stream index at or after position k whose message matches the
subject, together with that message. -/
def findMatch : List StoredMsg → String → Nat → Option (Nat × StoredMsg)
  | [], _, _ => Option.none
  | m :: rest, s, 0 =>
    if m.subject == s then some (0, m)
    else (findMatch rest s 0).map (fun p => (p.1 + 1, p.2))
  | _ :: rest, s, k + 1 => (findMatch rest s k).map (fun p => (p.1 + 1, p.2))

/-- Number of stream messages at or after position k matching the subject. -/
def matchesFrom : List StoredMsg → String → Nat → Nat
  | [], _, _ => 0
  | m :: rest, s, 0 => (if m.subject == s then 1 else 0) + matchesFrom rest s 0
  | _ :: rest, s, k + 1 => matchesFrom rest s k

/-- Modelled from the spec: in-flight deliveries whose ack-wait interval has
elapsed at time t and which are therefore eligible for redelivery. -/
def redeliverable (ackWait t : Nat) (pending : List (Nat × Nat)) : List (Nat × Nat) :=
  pending.filter (fun p => decide (p.2 + ackWait ≤ t))

/-- Reset the delivery time of a pending entry on redelivery. -/
def updatePendingTime (pending : List (Nat × Nat)) (i t : Nat) : List (Nat × Nat) :=
  pending.map (fun p => if p.1 == i then (i, t) else p)

/-- Modelled from the spec: one pull fetch of batch size one at time t.
Redelivery-eligible in-flight messages are delivered first, in original
stream order; otherwise the cursor advances over the next matching message,
which becomes in-flight.  When nothing is available the fetch times out and
yields no message. -/
def fetchOne (b : BrokerState) (subject durable : String) (t : Nat) :
    Option (Nat × StoredMsg) × BrokerState :=
  let c := getConsumer b durable
  match (redeliverable b.ackWait t c.pending).head? with
  | some (i, _) =>
    match b.stream[i]? with
    | some m =>
      (some (i, m),
        setConsumer b durable { c with pending := updatePendingTime c.pending i t })
    | Option.none => (Option.none, b)
  | Option.none =>
    match findMatch b.stream subject c.nextIdx with
    | some (i, m) =>
      (some (i, m),
        setConsumer b durable
          { c with nextIdx := i + 1, pending := c.pending ++ [(i, t)] })
    | Option.none => (Option.none, b)

/-- Modelled from the spec: acknowledging an in-flight delivery removes it
from the pending set for good. -/
def ackMsg (b : BrokerState) (durable : String) (i : Nat) : BrokerState :=
  let c := getConsumer b durable
  setConsumer b durable
    { c with pending := c.pending.filter (fun p => p.1 != i),
             acked := c.acked ++ [i] }

/-- publish_message: serialize the envelope with to_json and append it to
the stream; the broker acknowledges persistence before the call returns. -/
def publishMessage (b : BrokerState) (subject : String) (m : TestMessage) :
    BrokerState :=
  { b with stream := b.stream ++ [⟨subject, m.to_dict⟩] }

/-- The fetch loop body of NATSTestHelper.subscribe_messages: up to count
fetches of batch size one; a fetched message is deserialized, appended to
the result and acknowledged; a fetch timeout or a deserialization failure
is caught and breaks the loop, returning the partial result.  Each result
entry carries its stream index, the ack handle the real client holds; the
caller-visible list projects it away.  freshId supplies the uuid4 stream
used by deserialization at each step. -/
def subscribeLoop (freshId : Nat → String) (freshTs : Datetime)
    (subject durable : String) (t : Nat) :
    Nat → Nat → BrokerState → List (Nat × TestMessage) →
    List (Nat × TestMessage) × BrokerState
  | 0, _, b, acc => (acc, b)
  | count + 1, step, b, acc =>
    match fetchOne b subject durable t with
    | (Option.none, b1) => (acc, b1)
    | (some (i, m), b1) =>
      match TestMessage.from_json (freshId step) freshTs m.data with
      | .error _ => (acc, b1)
      | .ok tm =>
        subscribeLoop freshId freshTs subject durable t count (step + 1)
          (ackMsg b1 durable i) (acc ++ [(i, tm)])

/-- NATSTestHelper.subscribe_messages: pull_subscribe on the durable name,
then the fetch loop, returning the deserialized envelopes. -/
def subscribe_messages (freshId : Nat → String) (freshTs : Datetime)
    (subject durable : String) (t : Nat) (count : Nat) (b : BrokerState) :
    List TestMessage × BrokerState :=
  let b0 := pullSubscribe b durable
  let r := subscribeLoop freshId freshTs subject durable t count 0 b0 []
  (r.1.map (fun p => p.2), r.2)

theorem find?_updateAssoc_self (l : List (String × ConsumerState))
    (d : String) (c : ConsumerState) :
    (updateAssoc l d c).find? (fun p => p.1 == d) = some (d, c) := by
  induction l with
  | nil => simp [updateAssoc, List.find?]
  | cons kv rest ih =>
    obtain ⟨k, v⟩ := kv
    by_cases h : k = d
    · subst h
      simp [updateAssoc, List.find?]
    · have hb : (k == d) = false := by simp [h]
      simp [updateAssoc, hb, List.find?, ih]

theorem find?_updateAssoc_ne (l : List (String × ConsumerState))
    (d d' : String) (c : ConsumerState) (h : d' ≠ d) :
    (updateAssoc l d c).find? (fun p => p.1 == d') =
      l.find? (fun p => p.1 == d') := by
  have hb : (d == d') = false := by simp [Ne.symm h]
  induction l with
  | nil => simp [updateAssoc, List.find?, hb]
  | cons kv rest ih =>
    obtain ⟨k, v⟩ := kv
    by_cases hk : k = d
    · subst hk
      simp [updateAssoc, List.find?, hb]
    · have hkb : (k == d) = false := by simp [hk]
      by_cases hk' : k = d'
      · subst hk'
        simp [updateAssoc, hkb, List.find?]
      · have hkb' : (k == d') = false := by simp [hk']
        simp [updateAssoc, hkb, hkb', List.find?, ih]

theorem getConsumer_setConsumer_self (b : BrokerState) (d : String)
    (c : ConsumerState) : getConsumer (setConsumer b d c) d = c := by
  simp [getConsumer, lookupConsumer, setConsumer, find?_updateAssoc_self]

theorem getConsumer_setConsumer_ne (b : BrokerState) (d d' : String)
    (c : ConsumerState) (h : d' ≠ d) :
    getConsumer (setConsumer b d c) d' = getConsumer b d' := by
  simp [getConsumer, lookupConsumer, setConsumer, find?_updateAssoc_ne _ _ _ _ h]

theorem lookupConsumer_setConsumer_ne (b : BrokerState) (d d' : String)
    (c : ConsumerState) (h : d' ≠ d) :
    lookupConsumer (setConsumer b d c) d' = lookupConsumer b d' := by
  simp [lookupConsumer, setConsumer, find?_updateAssoc_ne _ _ _ _ h]

theorem setConsumer_stream (b : BrokerState) (d : String) (c : ConsumerState) :
    (setConsumer b d c).stream = b.stream := rfl

theorem setConsumer_ackWait (b : BrokerState) (d : String) (c : ConsumerState) :
    (setConsumer b d c).ackWait = b.ackWait := rfl

/-- A fetch either leaves the broker untouched (timeout) or rewrites only
the fetching consumer, keeping its acknowledged set. -/
theorem fetchOne_snd (b : BrokerState) (subj d : String) (t : Nat) :
    (fetchOne b subj d t).2 = b ∨
    ∃ c, (fetchOne b subj d t).2 = setConsumer b d c ∧
      c.acked = (getConsumer b d).acked := by
  unfold fetchOne
  cases h1 : (redeliverable b.ackWait t (getConsumer b d).pending).head? with
  | some p =>
    obtain ⟨i, ti⟩ := p
    cases h2 : b.stream[i]? with
    | some m =>
      refine Or.inr ⟨⟨(getConsumer b d).nextIdx,
        updatePendingTime (getConsumer b d).pending i t,
        (getConsumer b d).acked⟩, ?_, rfl⟩
      simp only [h1, h2]
    | none =>
      refine Or.inl ?_
      simp only [h1, h2]
  | none =>
    cases h3 : findMatch b.stream subj (getConsumer b d).nextIdx with
    | some p =>
      obtain ⟨i, m⟩ := p
      refine Or.inr ⟨⟨i + 1,
        (getConsumer b d).pending ++ [(i, t)],
        (getConsumer b d).acked⟩, ?_, rfl⟩
      simp only [h1, h3]
    | none =>
      refine Or.inl ?_
      simp only [h1, h3]

theorem fetchOne_stream (b : BrokerState) (subj d : String) (t : Nat) :
    ((fetchOne b subj d t).2).stream = b.stream := by
  rcases fetchOne_snd b subj d t with h | ⟨c, h, _⟩
  · rw [h]
  · rw [h, setConsumer_stream]

theorem fetchOne_ackWait (b : BrokerState) (subj d : String) (t : Nat) :
    ((fetchOne b subj d t).2).ackWait = b.ackWait := by
  rcases fetchOne_snd b subj d t with h | ⟨c, h, _⟩
  · rw [h]
  · rw [h, setConsumer_ackWait]

theorem fetchOne_acked (b : BrokerState) (subj d : String) (t : Nat) :
    (getConsumer (fetchOne b subj d t).2 d).acked = (getConsumer b d).acked := by
  rcases fetchOne_snd b subj d t with h | ⟨c, h, hc⟩
  · rw [h]
  · rw [h, getConsumer_setConsumer_self, hc]

theorem fetchOne_other (b : BrokerState) (subj d d' : String) (t : Nat)
    (h : d' ≠ d) :
    lookupConsumer (fetchOne b subj d t).2 d' = lookupConsumer b d' := by
  rcases fetchOne_snd b subj d t with h2 | ⟨c, h2, _⟩
  · rw [h2]
  · rw [h2, lookupConsumer_setConsumer_ne _ _ _ _ h]

theorem ackMsg_eq_set (b : BrokerState) (d : String) (i : Nat) :
    ackMsg b d i = setConsumer b d
      { nextIdx := (getConsumer b d).nextIdx,
        pending := (getConsumer b d).pending.filter (fun p => p.1 != i),
        acked := (getConsumer b d).acked ++ [i] } := rfl

theorem ackMsg_stream (b : BrokerState) (d : String) (i : Nat) :
    (ackMsg b d i).stream = b.stream := rfl

theorem ackMsg_ackWait (b : BrokerState) (d : String) (i : Nat) :
    (ackMsg b d i).ackWait = b.ackWait := rfl

theorem ackMsg_other (b : BrokerState) (d d' : String) (i : Nat) (h : d' ≠ d) :
    lookupConsumer (ackMsg b d i) d' = lookupConsumer b d' := by
  rw [ackMsg_eq_set, lookupConsumer_setConsumer_ne _ _ _ _ h]

theorem findMatch_none (l : List StoredMsg) (s : String) (k : Nat)
    (h : findMatch l s k = Option.none) : matchesFrom l s k = 0 := by
  induction l generalizing k with
  | nil => rfl
  | cons m rest ih =>
    cases k with
    | zero =>
      by_cases hm : (m.subject == s) = true
      · simp [findMatch, hm] at h
      · simp only [findMatch, hm, Bool.false_eq_true, if_false,
          Option.map_eq_none'] at h
        simp [matchesFrom, hm, ih 0 h]
    | succ k =>
      simp only [findMatch, Option.map_eq_none'] at h
      simpa [matchesFrom] using ih k h

theorem findMatch_some (l : List StoredMsg) (s : String) (k i : Nat)
    (m : StoredMsg) (h : findMatch l s k = some (i, m)) :
    l[i]? = some m ∧ m.subject = s ∧
      matchesFrom l s k = matchesFrom l s (i + 1) + 1 := by
  induction l generalizing k i with
  | nil => simp [findMatch] at h
  | cons m0 rest ih =>
    cases k with
    | zero =>
      by_cases hm : (m0.subject == s) = true
      · simp only [findMatch, hm, if_true] at h
        obtain ⟨hi, hmm⟩ : 0 = i ∧ m0 = m := by
          have h0 := Option.some.inj h
          exact ⟨congrArg Prod.fst h0, congrArg Prod.snd h0⟩
        subst hmm
        rw [← hi]
        refine ⟨by simp, by simpa using hm, ?_⟩
        show matchesFrom (m0 :: rest) s 0 = matchesFrom (m0 :: rest) s (0 + 1) + 1
        simp only [matchesFrom, hm, if_true]
        omega
      · simp only [findMatch, hm, Bool.false_eq_true, if_false,
          Option.map_eq_some'] at h
        obtain ⟨⟨i', m'⟩, hfm, heq⟩ := h
        obtain ⟨hi, hmm⟩ : i' + 1 = i ∧ m' = m := by
          have h1 := congrArg Prod.fst heq
          have h2 := congrArg Prod.snd heq
          exact ⟨h1, h2⟩
        subst hmm
        obtain ⟨hg, hsub, hcnt⟩ := ih 0 i' hfm
        subst hi
        refine ⟨by simpa using hg, hsub, ?_⟩
        show matchesFrom (m0 :: rest) s 0 = matchesFrom (m0 :: rest) s (i' + 1 + 1) + 1
        simp [matchesFrom, hm, hcnt]
    | succ k =>
      simp only [findMatch, Option.map_eq_some'] at h
      obtain ⟨⟨i', m'⟩, hfm, heq⟩ := h
      obtain ⟨hi, hmm⟩ : i' + 1 = i ∧ m' = m := by
        have h1 := congrArg Prod.fst heq
        have h2 := congrArg Prod.snd heq
        exact ⟨h1, h2⟩
      subst hmm
      obtain ⟨hg, hsub, hcnt⟩ := ih k i' hfm
      subst hi
      exact ⟨by simpa using hg, hsub, by simpa [matchesFrom] using hcnt⟩

/-- Whether deserialization succeeds does not depend on the freshly drawn
uuid or clock value; those only fill falsy fields of a success. -/
theorem from_json_isOk_eq (f1 f2 : String) (t1 t2 : Datetime) (v : PyValue) :
    (TestMessage.from_json f1 t1 v).isOk = (TestMessage.from_json f2 t2 v).isOk := by
  unfold TestMessage.from_json
  cases h1 : getItem v "id" with
  | error e => rfl
  | ok iv =>
  cases h2 : getItem v "type" with
  | error e => rfl
  | ok tv =>
  cases h3 : getItem v "payload" with
  | error e => rfl
  | ok pv =>
  cases h4 : getItem v "timestamp" with
  | error e => rfl
  | ok w =>
  cases w with
  | str s =>
    cases h5 : Datetime.fromisoformat s with
    | some dt =>
      simp [bind, Except.bind, pure, Except.pure, h5, Except.isOk, Except.toBool]
    | none =>
      simp [bind, Except.bind, pure, Except.pure, h5, Except.isOk, Except.toBool]
  | int n => rfl
  | bool b => rfl
  | list xs => rfl
  | dict fs => rfl
  | none => rfl

theorem subscribeLoop_length (freshId : Nat → String) (freshTs : Datetime)
    (subject durable : String) (t : Nat) :
    ∀ (count step : Nat) (b : BrokerState) (acc : List (Nat × TestMessage)),
      (subscribeLoop freshId freshTs subject durable t count step b acc).1.length ≤
        acc.length + count := by
  intro count
  induction count with
  | zero =>
    intro step b acc
    simp [subscribeLoop]
  | succ n ih =>
    intro step b acc
    unfold subscribeLoop
    cases hf : fetchOne b subject durable t with
    | mk fst b1 =>
      cases fst with
      | none =>
        simp only []
        omega
      | some p =>
        obtain ⟨i, m⟩ := p
        cases hd : TestMessage.from_json (freshId step) freshTs m.data with
        | error e =>
          simp only [hd]
          omega
        | ok tm =>
          simp only [hd]
          have := ih (step + 1) (ackMsg b1 durable i) (acc ++ [(i, tm)])
          simp only [List.length_append, List.length_singleton] at this
          omega

/-- C6: the fetch loop is total (a fetch timeout is caught, never raised to
the caller) and returns at most the requested count of messages; a timeout
mid-loop leaves exactly the messages obtained so far. -/
theorem subscribe_messages_partial (freshId : Nat → String) (freshTs : Datetime)
    (subject durable : String) (t count : Nat) (b : BrokerState) :
    (subscribe_messages freshId freshTs subject durable t count b).1.length ≤ count := by
  unfold subscribe_messages
  simp only [List.length_map]
  simpa using subscribeLoop_length freshId freshTs subject durable t count 0
    (pullSubscribe b durable) []

theorem subscribeLoop_ack_invariant (freshId : Nat → String) (freshTs : Datetime)
    (subject durable : String) (t : Nat) :
    ∀ (count step : Nat) (b : BrokerState) (acc : List (Nat × TestMessage)),
      (∀ p ∈ acc, p.1 ∈ (getConsumer b durable).acked) →
      ∀ p ∈ (subscribeLoop freshId freshTs subject durable t count step b acc).1,
        p.1 ∈ (getConsumer
          (subscribeLoop freshId freshTs subject durable t count step b acc).2
          durable).acked := by
  intro count
  induction count with
  | zero =>
    intro step b acc hacc
    simpa [subscribeLoop] using hacc
  | succ n ih =>
    intro step b acc hacc
    unfold subscribeLoop
    cases hf : fetchOne b subject durable t with
    | mk fst b1 =>
      have hb1 : (fetchOne b subject durable t).2 = b1 := by rw [hf]
      have hack : (getConsumer b1 durable).acked = (getConsumer b durable).acked := by
        rw [← hb1, fetchOne_acked]
      cases fst with
      | none =>
        simp only []
        intro p hp
        rw [hack]
        exact hacc p hp
      | some q =>
        obtain ⟨i, m⟩ := q
        cases hd : TestMessage.from_json (freshId step) freshTs m.data with
        | error e =>
          simp only [hd]
          intro p hp
          rw [hack]
          exact hacc p hp
        | ok tm =>
          simp only [hd]
          refine ih (step + 1) (ackMsg b1 durable i) (acc ++ [(i, tm)]) ?_
          intro p hp
          have hget : getConsumer (ackMsg b1 durable i) durable =
              ⟨(getConsumer b1 durable).nextIdx,
               (getConsumer b1 durable).pending.filter (fun q => q.1 != i),
               (getConsumer b1 durable).acked ++ [i]⟩ := by
            rw [ackMsg_eq_set, getConsumer_setConsumer_self]
          rw [hget]
          rcases List.mem_append.mp hp with hold | hnew
          · exact List.mem_append_left _ (by rw [hack]; exact hacc p hold)
          · have : p = (i, tm) := List.mem_singleton.mp hnew
            subst this
            exact List.mem_append_right _ (List.mem_singleton.mpr rfl)

/-- C5: every envelope returned by subscribe_messages was acknowledged at
the moment its bytes deserialized, before the loop moved on: in the final
broker state, the ack handle of every returned (handle, envelope) pair is
in the durable consumer acknowledged set, and the caller-visible result is
exactly the projection of those pairs. -/
theorem subscribe_messages_acks (freshId : Nat → String) (freshTs : Datetime)
    (subject durable : String) (t count : Nat) (b : BrokerState) :
    (∀ p ∈ (subscribeLoop freshId freshTs subject durable t count 0
        (pullSubscribe b durable) []).1,
      p.1 ∈ (getConsumer
        (subscribe_messages freshId freshTs subject durable t count b).2
        durable).acked) ∧
    (subscribe_messages freshId freshTs subject durable t count b).1 =
      (subscribeLoop freshId freshTs subject durable t count 0
        (pullSubscribe b durable) []).1.map (fun p => p.2) := by
  constructor
  · intro p hp
    exact subscribeLoop_ack_invariant freshId freshTs subject durable t count 0
      (pullSubscribe b durable) [] (by intro q hq; cases hq) p hp
  · rfl

/-- A demonstration timestamp with sub-second precision. -/
def dtDemo : Datetime := ⟨2024, 1, 2, 3, 4, 5, 123456⟩

/-- A demonstration envelope as the failure-recovery test builds it. -/
def demoMsg : TestMessage :=
  ⟨.str "m-1", .str "retry_test", .str "retry message", dtDemo⟩

/-- A broker holding one published copy of demoMsg, ack-wait 30. -/
def demoBroker : BrokerState :=
  publishMessage ⟨[], [], 30⟩ "finovatex.system.retry.test" demoMsg

/-- Witness for C5: after fetching the one published message, its ack
handle 0 is acknowledged in the final broker state. -/
theorem subscribe_messages_acks_witness :
    (0 : Nat) ∈ (getConsumer
      (subscribe_messages (fun _ => "u") dtDemo "finovatex.system.retry.test"
        "demo-consumer" 7 1 demoBroker).2 "demo-consumer").acked :=
  (subscribe_messages_acks (fun _ => "u") dtDemo "finovatex.system.retry.test"
      "demo-consumer" 7 1 demoBroker).1 (0, demoMsg) (List.Mem.head _)

/-- C4: fetch a message on a durable consumer with nothing else in flight
and withhold the acknowledgment; any fetch on the same durable name at or
after the ack-wait interval redelivers the very same stored message, hence
a message carrying the same envelope id. -/
theorem redelivery_on_nack (b : BrokerState) (subj d : String) (t0 t1 i : Nat)
    (m : StoredMsg) (b1 : BrokerState)
    (hpend : (getConsumer b d).pending = [])
    (hfetch : fetchOne b subj d t0 = (some (i, m), b1))
    (hwait : t0 + b.ackWait ≤ t1) :
    (fetchOne b1 subj d t1).1 = some (i, m) := by
  have hred0 : redeliverable b.ackWait t0 (getConsumer b d).pending = [] := by
    rw [hpend]; rfl
  simp only [fetchOne, hred0, List.head?_nil] at hfetch
  cases hm : findMatch b.stream subj (getConsumer b d).nextIdx with
  | none =>
    rw [hm] at hfetch
    simp at hfetch
  | some q =>
    obtain ⟨i', m'⟩ := q
    rw [hm] at hfetch
    have hfst : (some (i', m') : Option (Nat × StoredMsg)) = some (i, m) :=
      congrArg Prod.fst hfetch
    have hpair : (i', m') = (i, m) := Option.some.inj hfst
    have hi : i' = i := congrArg Prod.fst hpair
    have hmm : m' = m := congrArg Prod.snd hpair
    have hb1 := congrArg Prod.snd hfetch
    simp only [] at hb1
    subst hi
    subst hmm
    obtain ⟨hget, hsubj, hcnt⟩ := findMatch_some _ _ _ _ _ hm
    have hcons : getConsumer b1 d =
        ⟨i' + 1, (getConsumer b d).pending ++ [(i', t0)],
         (getConsumer b d).acked⟩ := by
      rw [← hb1, getConsumer_setConsumer_self]
    have hstream : b1.stream = b.stream := by
      rw [← hb1, setConsumer_stream]
    have hwaitb : b1.ackWait = b.ackWait := by
      rw [← hb1, setConsumer_ackWait]
    have hdec : decide (t0 + b.ackWait ≤ t1) = true := decide_eq_true hwait
    have hredel : redeliverable b1.ackWait t1 (getConsumer b1 d).pending =
        [(i', t0)] := by
      rw [hcons, hwaitb, hpend]
      simp [redeliverable, hdec]
    simp only [fetchOne, hredel, List.head?_cons, hstream, hget]

/-- Witness for C4: fetch the single demo message at time 0 without
acknowledging; a second fetch at time 30 (the ack-wait) redelivers it. -/
theorem redelivery_on_nack_witness :
    (fetchOne (fetchOne demoBroker "finovatex.system.retry.test" "retry-c" 0).2
      "finovatex.system.retry.test" "retry-c" 30).1 =
      some (0, ⟨"finovatex.system.retry.test", demoMsg.to_dict⟩) :=
  redelivery_on_nack demoBroker "finovatex.system.retry.test" "retry-c" 0 30 0
    ⟨"finovatex.system.retry.test", demoMsg.to_dict⟩ _ rfl rfl (by decide)

/-- The fixed subject of the ordering scenario. -/
def orderingSubject : String := "finovatex.system.ordering.test"

/-- The envelope order-NNN of the ordering scenario. -/
def orderMsg (i : Nat) : TestMessage :=
  ⟨.str ("order-" ++ String.mk (pad3 i)), .str "ordering_test",
   .str ("ordered message " ++ String.mk (pad3 i)), dtDemo⟩

/-- Broker state after the ten envelopes order-000 .. order-009 have been
published sequentially, each publish awaited before the next. -/
def orderingBroker : BrokerState :=
  (List.range 10).foldl
    (fun b i => publishMessage b orderingSubject (orderMsg i)) ⟨[], [], 30⟩

/-- C2: after publishing order-000 .. order-009 sequentially to one
subject, fetching ten messages with one durable consumer yields the ids in
exactly the published order. -/
theorem message_ordering :
    ((subscribe_messages (fun _ => "uuid-fill") ⟨2024, 1, 1, 0, 0, 0, 0⟩
        orderingSubject "ordering-consumer" 50 10 orderingBroker).1).map
      TestMessage.id =
      [.str "order-000", .str "order-001", .str "order-002", .str "order-003",
       .str "order-004", .str "order-005", .str "order-006", .str "order-007",
       .str "order-008", .str "order-009"] := rfl

/-- A fixed epoch datetime used as the canonical fresh-clock value when
stating decode-success hypotheses. -/
def dtEpoch : Datetime := ⟨1970, 1, 1, 0, 0, 0, 0⟩

theorem subscribeLoop_stream (freshId : Nat → String) (freshTs : Datetime)
    (subject durable : String) (t : Nat) :
    ∀ (count step : Nat) (b : BrokerState) (acc : List (Nat × TestMessage)),
      (subscribeLoop freshId freshTs subject durable t count step b acc).2.stream
        = b.stream := by
  intro count
  induction count with
  | zero => intro step b acc; rfl
  | succ n ih =>
    intro step b acc
    unfold subscribeLoop
    cases hf : fetchOne b subject durable t with
    | mk fst b1 =>
    have hb1 : (fetchOne b subject durable t).2 = b1 := by rw [hf]
    have hs1 : b1.stream = b.stream := by rw [← hb1, fetchOne_stream]
    cases fst with
    | none => simpa using hs1
    | some p =>
      obtain ⟨i, m⟩ := p
      cases hd : TestMessage.from_json (freshId step) freshTs m.data with
      | error e => simpa [hd] using hs1
      | ok tm =>
        simp only [hd]
        rw [ih (step + 1) (ackMsg b1 durable i) (acc ++ [(i, tm)]),
          ackMsg_stream, hs1]

theorem subscribeLoop_other (freshId : Nat → String) (freshTs : Datetime)
    (subject durable d' : String) (t : Nat) (hne : d' ≠ durable) :
    ∀ (count step : Nat) (b : BrokerState) (acc : List (Nat × TestMessage)),
      lookupConsumer
        (subscribeLoop freshId freshTs subject durable t count step b acc).2 d'
        = lookupConsumer b d' := by
  intro count
  induction count with
  | zero => intro step b acc; rfl
  | succ n ih =>
    intro step b acc
    unfold subscribeLoop
    cases hf : fetchOne b subject durable t with
    | mk fst b1 =>
    have hb1 : (fetchOne b subject durable t).2 = b1 := by rw [hf]
    have hs1 : lookupConsumer b1 d' = lookupConsumer b d' := by
      rw [← hb1, fetchOne_other _ _ _ _ _ hne]
    cases fst with
    | none => simpa using hs1
    | some p =>
      obtain ⟨i, m⟩ := p
      cases hd : TestMessage.from_json (freshId step) freshTs m.data with
      | error e => simpa [hd] using hs1
      | ok tm =>
        simp only [hd]
        rw [ih (step + 1) (ackMsg b1 durable i) (acc ++ [(i, tm)]),
          ackMsg_other _ _ _ _ hne, hs1]

/-- Core fan-out lemma: a consumer whose durable state has an empty
in-flight set receives, in one subscribe_messages loop, exactly
min(requested, remaining matching messages) envelopes, provided every
matching stored message deserializes. -/
theorem subscribeLoop_complete (freshId : Nat → String) (freshTs : Datetime)
    (subj d : String) (t : Nat) :
    ∀ (count step : Nat) (b : BrokerState) (acc : List (Nat × TestMessage))
      (k : Nat) (ak : List Nat),
      getConsumer b d = ⟨k, [], ak⟩ →
      (∀ m ∈ b.stream, m.subject = subj →
        (TestMessage.from_json "" dtEpoch m.data).isOk = true) →
      (subscribeLoop freshId freshTs subj d t count step b acc).1.length =
        acc.length + min count (matchesFrom b.stream subj k) := by
  intro count
  induction count with
  | zero =>
    intro step b acc k ak hcons hdec
    simp [subscribeLoop]
  | succ n ih =>
    intro step b acc k ak hcons hdec
    have hpend : (getConsumer b d).pending = [] := by rw [hcons]
    have hred : redeliverable b.ackWait t (getConsumer b d).pending = [] := by
      rw [hpend]; rfl
    have hnext : (getConsumer b d).nextIdx = k := by rw [hcons]
    unfold subscribeLoop
    cases hm : findMatch b.stream subj k with
    | none =>
      have hfetch : fetchOne b subj d t = (Option.none, b) := by
        simp only [fetchOne, hred, List.head?_nil, hnext, hm]
      rw [hfetch]
      simp only []
      rw [findMatch_none _ _ _ hm]
      simp
    | some q =>
      obtain ⟨i, m⟩ := q
      obtain ⟨hget, hsubj, hcnt⟩ := findMatch_some _ _ _ _ _ hm
      have hfetch : fetchOne b subj d t =
          (some (i, m), setConsumer b d ⟨i + 1, [(i, t)], ak⟩) := by
        simp only [fetchOne, hred, List.head?_nil, hnext, hm, hcons,
          List.nil_append, redeliverable, List.filter_nil]
      have hmem : m ∈ b.stream := List.getElem?_mem hget
      have hok : (TestMessage.from_json (freshId step) freshTs m.data).isOk
          = true := by
        rw [from_json_isOk_eq (freshId step) "" freshTs dtEpoch]
        exact hdec m hmem hsubj
      rw [hfetch]
      simp only []
      cases hd : TestMessage.from_json (freshId step) freshTs m.data with
      | error e =>
        rw [hd] at hok
        simp [Except.isOk, Except.toBool] at hok
      | ok tm =>
        simp only [hd]
        have hcons2 : getConsumer
            (ackMsg (setConsumer b d ⟨i + 1, [(i, t)], ak⟩) d i) d =
            ⟨i + 1, [], ak ++ [i]⟩ := by
          rw [ackMsg_eq_set, getConsumer_setConsumer_self,
            getConsumer_setConsumer_self]
          simp [List.filter]
        have hstr2 : (ackMsg (setConsumer b d ⟨i + 1, [(i, t)], ak⟩) d i).stream
            = b.stream := by
          rw [ackMsg_stream, setConsumer_stream]
        have hrec := ih (step + 1)
          (ackMsg (setConsumer b d ⟨i + 1, [(i, t)], ak⟩) d i)
          (acc ++ [(i, tm)]) (i + 1) (ak ++ [i]) hcons2
          (by rw [hstr2]; exact hdec)
        rw [hrec, hstr2, List.length_append, hcnt, Nat.succ_min_succ]
        simp
        omega

/-- One published stream entry per fan-out message; the stream untouched by
consumption. -/
theorem pullSubscribe_stream (b : BrokerState) (d : String) :
    (pullSubscribe b d).stream = b.stream := by
  cases hl : lookupConsumer b d with
  | none => simp [pullSubscribe, hl, setConsumer_stream]
  | some c => simp [pullSubscribe, hl]

theorem pullSubscribe_other (b : BrokerState) (d d' : String) (h : d' ≠ d) :
    lookupConsumer (pullSubscribe b d) d' = lookupConsumer b d' := by
  cases hl : lookupConsumer b d with
  | none => simp [pullSubscribe, hl, lookupConsumer_setConsumer_ne _ _ _ _ h]
  | some c => simp [pullSubscribe, hl]

theorem subscribe_messages_stream (freshId : Nat → String) (freshTs : Datetime)
    (subj d : String) (t count : Nat) (b : BrokerState) :
    (subscribe_messages freshId freshTs subj d t count b).2.stream = b.stream := by
  unfold subscribe_messages
  simp only []
  rw [subscribeLoop_stream, pullSubscribe_stream]

theorem subscribe_messages_other (freshId : Nat → String) (freshTs : Datetime)
    (subj d d' : String) (t count : Nat) (b : BrokerState) (h : d' ≠ d) :
    lookupConsumer (subscribe_messages freshId freshTs subj d t count b).2 d'
      = lookupConsumer b d' := by
  unfold subscribe_messages
  simp only []
  rw [subscribeLoop_other _ _ _ _ _ _ h, pullSubscribe_other _ _ _ h]

/-- A consumer named fresh (unknown to the broker) that requests count
messages receives min(count, all matching messages), starting from the head
of the stream: deliver-all semantics. -/
theorem subscribe_messages_complete (freshId : Nat → String) (freshTs : Datetime)
    (subj d : String) (t count : Nat) (b : BrokerState)
    (hfresh : lookupConsumer b d = Option.none)
    (hdec : ∀ m ∈ b.stream, m.subject = subj →
      (TestMessage.from_json "" dtEpoch m.data).isOk = true) :
    (subscribe_messages freshId freshTs subj d t count b).1.length =
      min count (matchesFrom b.stream subj 0) := by
  unfold subscribe_messages
  simp only [List.length_map]
  have hps : pullSubscribe b d = setConsumer b d ConsumerState.fresh := by
    simp [pullSubscribe, hfresh]
  have hcons : getConsumer (pullSubscribe b d) d = ⟨0, [], []⟩ := by
    rw [hps, getConsumer_setConsumer_self]; rfl
  have hstr : (pullSubscribe b d).stream = b.stream := pullSubscribe_stream b d
  have h := subscribeLoop_complete freshId freshTs subj d t count 0
    (pullSubscribe b d) [] 0 [] hcons (by rw [hstr]; exact hdec)
  rw [hstr] at h
  simpa using h

/-- The concurrent-consumer harness: each named durable consumer in turn
fetches count messages; consumers are independent, so the serialization
order does not affect any per-consumer result. -/
def runConsumers (freshId : Nat → String) (freshTs : Datetime) (subj : String)
    (t count : Nat) : List String → BrokerState →
    List (List TestMessage) × BrokerState
  | [], b => ([], b)
  | d :: rest, b =>
    let r1 := subscribe_messages freshId freshTs subj d t count b
    let r2 := runConsumers freshId freshTs subj t count rest r1.2
    (r1.1 :: r2.1, r2.2)

/-- C3: with N distinct, previously unused durable names on one stream and
subject, each consumer fetching M = (number of matching published messages)
receives all M messages itself, and total deliveries are N times M - a full
copy per consumer, not a partition. -/
theorem fan_out_independence (freshId : Nat → String) (freshTs : Datetime)
    (subj : String) (t : Nat) :
    ∀ (names : List String) (b : BrokerState),
      names.Nodup →
      (∀ d ∈ names, lookupConsumer b d = Option.none) →
      (∀ m ∈ b.stream, m.subject = subj →
        (TestMessage.from_json "" dtEpoch m.data).isOk = true) →
      (∀ res ∈ (runConsumers freshId freshTs subj t
          (matchesFrom b.stream subj 0) names b).1,
        res.length = matchesFrom b.stream subj 0) ∧
      ((runConsumers freshId freshTs subj t (matchesFrom b.stream subj 0)
          names b).1.map List.length).sum =
        names.length * matchesFrom b.stream subj 0 := by
  intro names
  induction names with
  | nil =>
    intro b _ _ _
    exact ⟨fun res h => absurd h (List.not_mem_nil res), by simp [runConsumers]⟩
  | cons d rest ih =>
    intro b hnd hfresh hdec
    obtain ⟨hd_notin, hnd_rest⟩ := List.nodup_cons.mp hnd
    have hfrd : lookupConsumer b d = Option.none :=
      hfresh d (List.mem_cons_self d rest)
    have hlen1 : (subscribe_messages freshId freshTs subj d t
        (matchesFrom b.stream subj 0) b).1.length =
        matchesFrom b.stream subj 0 := by
      rw [subscribe_messages_complete freshId freshTs subj d t _ b hfrd hdec]
      exact Nat.min_self _
    have hstr1 : (subscribe_messages freshId freshTs subj d t
        (matchesFrom b.stream subj 0) b).2.stream = b.stream :=
      subscribe_messages_stream freshId freshTs subj d t _ b
    have hfresh1 : ∀ d' ∈ rest,
        lookupConsumer (subscribe_messages freshId freshTs subj d t
          (matchesFrom b.stream subj 0) b).2 d' = Option.none := by
      intro d' hd'
      have hne : d' ≠ d := fun he => hd_notin (he ▸ hd')
      rw [subscribe_messages_other freshId freshTs subj d d' t _ b hne]
      exact hfresh d' (List.mem_cons_of_mem d hd')
    have hdec1 : ∀ m ∈ (subscribe_messages freshId freshTs subj d t
        (matchesFrom b.stream subj 0) b).2.stream, m.subject = subj →
        (TestMessage.from_json "" dtEpoch m.data).isOk = true := by
      rw [hstr1]; exact hdec
    have hrec := ih (subscribe_messages freshId freshTs subj d t
      (matchesFrom b.stream subj 0) b).2 hnd_rest hfresh1 hdec1
    rw [hstr1] at hrec
    constructor
    · intro res hres
      simp only [runConsumers] at hres
      rcases List.mem_cons.mp hres with heq | hmem
      · rw [heq]; exact hlen1
      · exact hrec.1 res hmem
    · simp only [runConsumers, List.map_cons, List.sum_cons, hlen1, hrec.2,
        List.length_cons]
      ring

/-- The fan-out scenario envelopes. -/
def fanMsg (i : Nat) : TestMessage :=
  ⟨.str ("f-" ++ String.mk (pad3 i)), .str "test_message",
   .str ("fan message " ++ String.mk (pad3 i)), dtDemo⟩

/-- Broker with two messages published to the fan-out subject. -/
def fanBroker : BrokerState :=
  publishMessage
    (publishMessage ⟨[], [], 30⟩ "finovatex.signal.buy.TEST" (fanMsg 0))
    "finovatex.signal.buy.TEST" (fanMsg 1)

/-- Witness for C3: three distinct fresh durable names each receive both
published messages and the total deliveries are three times two. -/
theorem fan_out_independence_witness :
    (∀ res ∈ (runConsumers (fun _ => "u") dtDemo "finovatex.signal.buy.TEST" 5
        (matchesFrom fanBroker.stream "finovatex.signal.buy.TEST" 0)
        ["c-0", "c-1", "c-2"] fanBroker).1,
      res.length = matchesFrom fanBroker.stream "finovatex.signal.buy.TEST" 0) ∧
    ((runConsumers (fun _ => "u") dtDemo "finovatex.signal.buy.TEST" 5
        (matchesFrom fanBroker.stream "finovatex.signal.buy.TEST" 0)
        ["c-0", "c-1", "c-2"] fanBroker).1.map List.length).sum =
      3 * matchesFrom fanBroker.stream "finovatex.signal.buy.TEST" 0 :=
  fan_out_independence (fun _ => "u") dtDemo "finovatex.signal.buy.TEST" 5
    ["c-0", "c-1", "c-2"] fanBroker (by decide)
    (by
      intro d hd
      simp only [List.mem_cons, List.not_mem_nil, or_false] at hd
      rcases hd with rfl | rfl | rfl <;> rfl)
    (by
      intro m hm hs
      simp only [fanBroker, publishMessage, List.mem_append,
        List.mem_singleton, List.not_mem_nil, false_or] at hm
      rcases hm with rfl | rfl <;> rfl)

/-!
Benchmark computations of TestPerformanceBenchmarks, with wall-clock reads
embedded as rational-number inputs.
-/

/-- test_message_throughput measurement core: duration is the span between
the clock reads bracketing the batch of concurrent publishes, and the
reported throughput divides the message count by it. -/
def test_message_throughput (message_count : Nat) (start_time end_time : ℚ) :
    ℚ × ℚ :=
  let duration := end_time - start_time
  let throughput := (message_count : ℚ) / duration
  (duration, throughput)

/-- C8: the reported throughput equals the message count divided by the
elapsed seconds between the measured clock reads, a pure function of the
two timestamps and the count with no smoothing or other adjustment. -/
theorem throughput_pure (n : Nat) (s e : ℚ) :
    (test_message_throughput n s e).2 = (n : ℚ) / (e - s) ∧
    (test_message_throughput n s e).1 = e - s :=
  ⟨rfl, rfl⟩

/-- One round-trip latency sample: elapsed seconds scaled to milliseconds. -/
def latency_ms (send recv : ℚ) : ℚ := (recv - send) * 1000

/-- Python max over a nonempty list (0 for the empty list, unreachable in
the benchmark). -/
def listMax : List ℚ → ℚ
  | [] => 0
  | x :: xs => xs.foldl max x

/-- Python min over a nonempty list (0 for the empty list, unreachable in
the benchmark). -/
def listMin : List ℚ → ℚ
  | [] => 0
  | x :: xs => xs.foldl min x

/-- test_message_latency statistics: per-iteration latencies from the
(send, receive) clock pairs, then average, maximum and minimum. -/
def test_message_latency (times : List (ℚ × ℚ)) : List ℚ × ℚ × ℚ × ℚ :=
  let latencies := times.map (fun p => latency_ms p.1 p.2)
  (latencies, latencies.sum / latencies.length,
   listMax latencies, listMin latencies)

theorem foldl_max_mem (xs : List ℚ) : ∀ x : ℚ, xs.foldl max x ∈ x :: xs := by
  induction xs with
  | nil => intro x; exact List.Mem.head _
  | cons y ys ih =>
    intro x
    rcases List.mem_cons.mp (ih (max x y)) with heq | hmem
    · rcases max_choice x y with hc | hc
      · rw [List.foldl_cons, heq, hc]; exact List.Mem.head _
      · rw [List.foldl_cons, heq, hc]
        exact List.Mem.tail _ (List.Mem.head _)
    · exact List.Mem.tail _ (List.Mem.tail _ hmem)

theorem le_foldl_max (xs : List ℚ) :
    ∀ x : ℚ, ∀ z ∈ x :: xs, z ≤ xs.foldl max x := by
  induction xs with
  | nil =>
    intro x z hz
    rw [List.mem_singleton.mp hz]
    exact le_refl x
  | cons y ys ih =>
    intro x z hz
    rw [List.foldl_cons]
    rcases List.mem_cons.mp hz with rfl | hmem
    · exact le_trans (le_max_left z y) (ih (max z y) _ (List.Mem.head _))
    · rcases List.mem_cons.mp hmem with rfl | hmem2
      · exact le_trans (le_max_right x z) (ih (max x z) _ (List.Mem.head _))
      · exact ih (max x y) z (List.Mem.tail _ hmem2)

theorem foldl_min_mem (xs : List ℚ) : ∀ x : ℚ, xs.foldl min x ∈ x :: xs := by
  induction xs with
  | nil => intro x; exact List.Mem.head _
  | cons y ys ih =>
    intro x
    rcases List.mem_cons.mp (ih (min x y)) with heq | hmem
    · rcases min_choice x y with hc | hc
      · rw [List.foldl_cons, heq, hc]; exact List.Mem.head _
      · rw [List.foldl_cons, heq, hc]
        exact List.Mem.tail _ (List.Mem.head _)
    · exact List.Mem.tail _ (List.Mem.tail _ hmem)

theorem foldl_min_le (xs : List ℚ) :
    ∀ x : ℚ, ∀ z ∈ x :: xs, xs.foldl min x ≤ z := by
  induction xs with
  | nil =>
    intro x z hz
    rw [List.mem_singleton.mp hz]
    exact le_refl x
  | cons y ys ih =>
    intro x z hz
    rw [List.foldl_cons]
    rcases List.mem_cons.mp hz with rfl | hmem
    · exact le_trans (ih (min z y) _ (List.Mem.head _)) (min_le_left z y)
    · rcases List.mem_cons.mp hmem with rfl | hmem2
      · exact le_trans (ih (min x z) _ (List.Mem.head _)) (min_le_right x z)
      · exact ih (min x y) z (List.Mem.tail _ hmem2)

theorem listMax_spec (l : List ℚ) (h : l ≠ []) :
    listMax l ∈ l ∧ ∀ z ∈ l, z ≤ listMax l := by
  cases l with
  | nil => exact absurd rfl h
  | cons x xs => exact ⟨foldl_max_mem xs x, le_foldl_max xs x⟩

theorem listMin_spec (l : List ℚ) (h : l ≠ []) :
    listMin l ∈ l ∧ ∀ z ∈ l, listMin l ≤ z := by
  cases l with
  | nil => exact absurd rfl h
  | cons x xs => exact ⟨foldl_min_mem xs x, foldl_min_le xs x⟩

/-- C9: each recorded latency equals (receive - send) scaled to
milliseconds and is nonnegative whenever the receive clock read is not
before the send read, and the reported statistics are exactly the mean,
maximum and minimum of the recorded latencies. -/
theorem latency_correct (times : List (ℚ × ℚ)) (hne : times ≠ [])
    (h : ∀ p ∈ times, p.1 ≤ p.2) :
    ((test_message_latency times).1 =
      times.map (fun p => (p.2 - p.1) * 1000)) ∧
    (∀ l ∈ (test_message_latency times).1, 0 ≤ l) ∧
    ((test_message_latency times).2.1 =
      (test_message_latency times).1.sum /
        (test_message_latency times).1.length) ∧
    ((test_message_latency times).2.2.1 ∈ (test_message_latency times).1 ∧
      ∀ l ∈ (test_message_latency times).1,
        l ≤ (test_message_latency times).2.2.1) ∧
    ((test_message_latency times).2.2.2 ∈ (test_message_latency times).1 ∧
      ∀ l ∈ (test_message_latency times).1,
        (test_message_latency times).2.2.2 ≤ l) := by
  have hmap : (test_message_latency times).1 =
      times.map (fun p => (p.2 - p.1) * 1000) := rfl
  have hlat_ne : (test_message_latency times).1 ≠ [] := by
    rw [hmap]
    simpa [List.map_eq_nil_iff] using hne
  refine ⟨hmap, ?_, rfl, ?_, ?_⟩
  · intro l hl
    rw [hmap] at hl
    obtain ⟨p, hp, rfl⟩ := List.mem_map.mp hl
    have := h p hp
    have hsub : (0 : ℚ) ≤ p.2 - p.1 := by linarith
    nlinarith
  · exact listMax_spec _ hlat_ne
  · exact listMin_spec _ hlat_ne

/-- Witness for C9 at two concrete round trips. -/
theorem latency_correct_witness :
    ((test_message_latency [(0, 1), (3, 5)]).1 =
      [(0, 1), (3, 5)].map (fun p => (p.2 - p.1) * 1000)) ∧
    (∀ l ∈ (test_message_latency [(0, 1), (3, 5)]).1, 0 ≤ l) ∧
    ((test_message_latency [(0, 1), (3, 5)]).2.1 =
      (test_message_latency [(0, 1), (3, 5)]).1.sum /
        (test_message_latency [(0, 1), (3, 5)]).1.length) ∧
    ((test_message_latency [(0, 1), (3, 5)]).2.2.1 ∈
        (test_message_latency [(0, 1), (3, 5)]).1 ∧
      ∀ l ∈ (test_message_latency [(0, 1), (3, 5)]).1,
        l ≤ (test_message_latency [(0, 1), (3, 5)]).2.2.1) ∧
    ((test_message_latency [(0, 1), (3, 5)]).2.2.2 ∈
        (test_message_latency [(0, 1), (3, 5)]).1 ∧
      ∀ l ∈ (test_message_latency [(0, 1), (3, 5)]).1,
        (test_message_latency [(0, 1), (3, 5)]).2.2.2 ≤ l) :=
  latency_correct [(0, 1), (3, 5)] (by decide) (by decide)

/-!
The configuration provider, from src/src/utils/config.py.
-/

/-- The default configuration tree installed by Config._load_defaults. -/
def configDefaults : PyValue :=
  .dict
    [("app", .dict [("name", .str "finovatex"), ("version", .str "0.1.0"),
       ("debug", .bool false), ("port", .int 8080)]),
     ("database", .dict [("host", .str "localhost"), ("port", .int 5432),
       ("name", .str "finovatex"), ("user", .str "postgres"),
       ("password", .str "")]),
     ("redis", .dict [("host", .str "localhost"), ("port", .int 6379),
       ("db", .int 0)]),
     ("logging", .dict [("level", .str "INFO"),
       ("format",
        .str "%(asctime)s - %(name)s - %(levelname)s - %(message)s")]),
     ("monitoring", .dict [("prometheus_port", .int 9090),
       ("metrics_enabled", .bool true)])]

/-- The configuration manager: its only state is the nested _config dict. -/
structure Config where
  _config : PyValue

/-- The traversal loop of Config.get: successive subscripts value[k],
propagating the first KeyError or TypeError. -/
def configTraverse : PyValue → List String → Except MalformedEnvelope PyValue
  | v, [] => .ok v
  | v, kk :: rest =>
    match getItem v kk with
    | .ok w => configTraverse w rest
    | .error e => .error e

/-- Character-level worker for the dot-split of a configuration key. -/
def splitChars : List Char → List Char → List String
  | [], acc => [String.mk acc.reverse]
  | c :: rest, acc =>
    if c == '.' then String.mk acc.reverse :: splitChars rest []
    else splitChars rest (c :: acc)

/-- The dot-split of a configuration key, as the Python str.split call in
Config.get produces it: an empty key gives one empty segment, adjacent or
trailing dots give empty segments. -/
def splitKey (key : String) : List String := splitChars key.data []

/-- Config.get: traverse the dot path over the stored dict inside a
try/except that converts KeyError and TypeError into the supplied default;
the stored configuration is returned unchanged as the post-call state. -/
def Config.get (c : Config) (key : String) (default : PyValue) :
    PyValue × Config :=
  match configTraverse c._config (splitKey key) with
  | .ok v => (v, c)
  | .error _ => (default, c)

/-- The dot-path traversal as the spec words it: at each step the current
value must be a dictionary containing the key, anything else fails. -/
def pathLookup : PyValue → List String → Option PyValue
  | v, [] => some v
  | .dict fields, kk :: rest =>
    (match dictLookup fields kk with
     | some w => pathLookup w rest
     | Option.none => Option.none)
  | _, _ :: _ => Option.none

theorem configTraverse_error_iff (ks : List String) :
    ∀ v, pathLookup v ks = Option.none ↔
      ∃ e, configTraverse v ks = .error e := by
  induction ks with
  | nil =>
    intro v
    simp [pathLookup, configTraverse]
  | cons kk rest ih =>
    intro v
    cases v with
    | dict fields =>
      cases hl : dictLookup fields kk with
      | some w => simp [pathLookup, configTraverse, getItem, hl, ih w]
      | none => simp [pathLookup, configTraverse, getItem, hl]
    | str s => simp [pathLookup, configTraverse, getItem]
    | int n => simp [pathLookup, configTraverse, getItem]
    | bool bv => simp [pathLookup, configTraverse, getItem]
    | list xs => simp [pathLookup, configTraverse, getItem]
    | none => simp [pathLookup, configTraverse, getItem]

/-- C10: Config.get is total: it never raises, leaves the stored
configuration unchanged, and returns the supplied default whenever the
dot-path traversal fails at any step (a missing key or a non-dictionary
intermediate value). -/
theorem config_get_total (c : Config) (key : String) (default : PyValue) :
    (Config.get c key default).2 = c ∧
    (pathLookup c._config (splitKey key) = Option.none →
      Config.get c key default = (default, c)) := by
  constructor
  · unfold Config.get
    cases h : configTraverse c._config (splitKey key) with
    | ok v => simp [h]
    | error e => simp [h]
  · intro hfail
    obtain ⟨e, he⟩ := (configTraverse_error_iff (splitKey key) c._config).mp hfail
    unfold Config.get
    rw [he]

/-- Witness for C10: looking three levels into app.debug (a boolean, not a
dictionary) on the default configuration returns the default and leaves
the configuration unchanged. -/
theorem config_get_total_witness :
    Config.get ⟨configDefaults⟩ "app.debug.x" (.str "fallback") =
      (.str "fallback", ⟨configDefaults⟩) :=
  (config_get_total ⟨configDefaults⟩ "app.debug.x" (.str "fallback")).2 rfl

end FinovateX
